import Mathlib

/-!
Verification of the Splitfy "Engagement Pipeline": a shallow embedding of
its two components.

* `ActivityTracker` (from `src/client/src/lib/activityTracker.ts`): a
  client-side activity batcher.  Its mutable instance fields (`isEnabled`,
  `batchQueue`, `batchTimeout`) become an explicit state record `Sys`;
  network calls become entries of an observable `Request` trace; the
  JavaScript timer runtime is made explicit as a list of pending timer
  handles plus a fresh-handle counter; exceptions become `Except` values
  with the source's `try`/`catch` blocks rendered as `match`es.

* `getUserRecommendations` (from `src/server/storage.ts`): the
  recommendation scorer.  Database results become function arguments
  (the resolved requester and the pre-filtered candidate pool),
  `Math.random()` becomes an explicit per-candidate jitter argument, and
  JavaScript numbers are idealized as rationals.
-/

/-- Shape `ActivityData` from `activityTracker.ts`: an event with a type tag and an
optional payload (the `any` payload is abstracted to its JSON text). -/
structure ActivityData where
  activityType : String
  activityData : Option String
deriving DecidableEq, Repr

/-- One observable network emission of the tracker:
a single-event POST to `/api/activity`, a batch POST to
`/api/activity/batch`, or a `navigator.sendBeacon` to `/api/activity`. -/
inductive Request where
  | single (event : ActivityData)
  | batch (activities : List ActivityData)
  | beacon (activityType : String) (activities : List ActivityData)
deriving DecidableEq, Repr

/-- The mutable state of one `ActivityTracker` instance, together with the
timer runtime it interacts with.  `batchTimeout` is the stored timer handle
(`null` or a handle), `pendingTimers` the handles currently scheduled in the
runtime and not yet fired or cancelled, `nextTimerId` the fresh-handle
supply. -/
structure Sys where
  isEnabled : Bool
  batchQueue : List ActivityData
  batchTimeout : Option Nat
  pendingTimers : List Nat
  nextTimerId : Nat
deriving DecidableEq, Repr

/-- Constant `BATCH_SIZE = 10`. -/
def BATCH_SIZE : Nat := 10

/-- Constant `BATCH_DELAY = 5000` milliseconds (timing itself is abstracted: the
timer firing is an explicit step `timerFire`). -/
def BATCH_DELAY : Nat := 5000

/-- The fixed immediate-event set from `track`. -/
def immediateEvents : List String := ["login", "signup", "error", "payment"]

/-- A fresh tracker: `isEnabled = true`, empty queue, no timer. -/
def initState : Sys :=
  { isEnabled := true, batchQueue := [], batchTimeout := none,
    pendingTimers := [], nextTimerId := 0 }

/-- Method `sendActivity`: issues one single-event request, then throws
when the response is not ok (`ok` models both a network rejection and a
non-2xx status, which throw at the same program point, after the fetch was
issued). Returns the requests issued and the `Except` outcome. -/
def sendActivity (event : ActivityData) (ok : Bool) :
    List Request × Except String Unit :=
  ([Request.single event],
   if ok then Except.ok () else Except.error "Failed to track activity")

/-- Method `flushBatch`: if the queue is empty, return at once.  Otherwise snapshot
the queue, clear it, cancel and clear any stored timer handle, then send the
snapshot as one batch request; a failure is caught and logged
(`console.warn`), so both branches of the internal `try`/`catch` yield the
same state and trace. -/
def flushBatch (s : Sys) (ok : Bool) : Sys × List Request :=
  if s.batchQueue.length = 0 then (s, [])
  else
    let batch := s.batchQueue
    let s1 := { s with batchQueue := [] }
    let s2 :=
      match s1.batchTimeout with
      | some id =>
          { s1 with batchTimeout := none,
                    pendingTimers := s1.pendingTimers.erase id }
      | none => s1
    let res : Except String Unit :=
      if ok then Except.ok () else Except.error "Failed to track batch activities"
    match res with
    | Except.ok _ => (s2, [Request.batch batch])
    | Except.error _ => (s2, [Request.batch batch])

/-- Method `track`: no-op when disabled.  Immediate events are sent at once through
`sendActivity`; a throw there is caught by the surrounding `try`/`catch`
(logged, state unchanged).  Batchable events are appended to the queue; at
`BATCH_SIZE` the batch is flushed, otherwise a deferred flush is scheduled
only when no timer handle is stored. -/
def track (s : Sys) (ty : String) (d : Option String) (ok : Bool) :
    Sys × List Request :=
  if s.isEnabled = false then (s, [])
  else if ty ∈ immediateEvents then
    let r := sendActivity ⟨ty, d⟩ ok
    match r.2 with
    | Except.ok _ => (s, r.1)
    | Except.error _ => (s, r.1)
  else
    let s1 := { s with batchQueue := s.batchQueue ++ [⟨ty, d⟩] }
    if BATCH_SIZE ≤ s1.batchQueue.length then flushBatch s1 ok
    else
      match s1.batchTimeout with
      | none =>
          ({ s1 with batchTimeout := some s1.nextTimerId,
                     pendingTimers := s1.pendingTimers ++ [s1.nextTimerId],
                     nextTimerId := s1.nextTimerId + 1 }, [])
      | some _ => (s1, [])

/-- The runtime fires the (first) scheduled timer: the handle stops being
pending and the callback `() => this.flushBatch()` runs. -/
def timerFire (s : Sys) (ok : Bool) : Sys × List Request :=
  match s.pendingTimers with
  | [] => (s, [])
  | _ :: rest => flushBatch { s with pendingTimers := rest } ok

/-- Method `beforeUnload`: when the queue is non-empty and `navigator.sendBeacon`
exists, beacon the whole queue as one `batch_unload` event.  The instance
state is not touched. -/
def beforeUnload (s : Sys) (hasSendBeacon : Bool) : Sys × List Request :=
  if 0 < s.batchQueue.length then
    if hasSendBeacon then
      (s, [Request.beacon "batch_unload" s.batchQueue])
    else (s, [])
  else (s, [])

/-- The public operations on a tracker instance, including the timer
runtime firing a scheduled callback. -/
inductive Op where
  | enable
  | disable
  | track (ty : String) (d : Option String) (ok : Bool)
  | timerFire (ok : Bool)
  | beforeUnload (hasSendBeacon : Bool)
deriving DecidableEq, Repr

/-- One operation applied to the state, with its emitted requests. -/
def step (s : Sys) : Op → Sys × List Request
  | Op.enable => ({ s with isEnabled := true }, [])
  | Op.disable => ({ s with isEnabled := false }, [])
  | Op.track ty d ok => track s ty d ok
  | Op.timerFire ok => timerFire s ok
  | Op.beforeUnload hb => beforeUnload s hb

/-- A sequence of operations, collecting the full request trace. -/
def runOps (s : Sys) : List Op → Sys × List Request
  | [] => (s, [])
  | op :: rest =>
    let r1 := step s op
    let r2 := runOps r1.1 rest
    (r2.1, r1.2 ++ r2.2)

/-! ## The recommendation scorer, `DatabaseStorage.getUserRecommendations` -/

/-- The slice of a `users` row that the scorer reads: the id and the
nullable `skills` array.  The remaining columns are spread unchanged into
the result and play no role in scoring. -/
structure User where
  id : String
  skills : Option (List String)
deriving DecidableEq, Repr

/-- One scored candidate, as built by the `map` inside
`getUserRecommendations`. -/
structure ScoredUser where
  user : User
  matchScore : ℚ
  matchReason : String
deriving DecidableEq, Repr

/-- JavaScript `Math.round(x * 100) / 100`: rounding to 2 decimal places.
JavaScript `Math.round` is floor of the value plus one half. -/
def round2 (q : ℚ) : ℚ := (⌊q * 100 + 1 / 2⌋ : ℚ) / 100

/-- The body of the `map` in `getUserRecommendations`: common skills by
exact (case-sensitive) membership, the guarded ratio, jitter, capping at 1,
rounding, and the human-readable reason.  `randomScore` stands for the
`Math.random() * 0.3` draw for this candidate. -/
def scoreUser (currentUser : User) (u : User) (randomScore : ℚ) : ScoredUser :=
  let currentSkills := currentUser.skills.getD []
  let userSkills := u.skills.getD []
  let commonSkills := currentSkills.filter (fun skill => decide (skill ∈ userSkills))
  let skillScore : ℚ :=
    (commonSkills.length : ℚ) / ((max (max currentSkills.length userSkills.length) 1 : Nat) : ℚ)
  let matchScore := min (skillScore + randomScore) 1
  let matchReason :=
    if 0 < commonSkills.length then
      "Shared skills: " ++ String.intercalate ", " (commonSkills.take 3)
    else "Similar profile interests"
  ⟨u, round2 matchScore, matchReason⟩

/-- Score the whole candidate pool; `rand i` is the jitter drawn for the
candidate at position `i`. -/
def scoreAll (currentUser : User) (rand : Nat → ℚ) : Nat → List User → List ScoredUser
  | _, [] => []
  | i, u :: us => scoreUser currentUser u (rand i) :: scoreAll currentUser rand (i + 1) us

/-- The comparator `(a, b) => b.matchScore - a.matchScore`: `a` may precede
`b` exactly when the difference is non-positive. -/
def byScoreDesc (a b : ScoredUser) : Bool := decide (b.matchScore ≤ a.matchScore)

/-- Method `getUserRecommendations`: `currentUser` is the resolved requester
(`none` when `getUser` found no row, upon which `[]` is returned at once),
`allUsers` the pre-filtered candidate pool from the database, `rand` the
per-candidate jitter source, `limit` the truncation bound (the source
defaults it to 10).  Candidates are scored, sorted descending by
`matchScore`, and truncated to `limit`. -/
def getUserRecommendations (currentUser : Option User) (allUsers : List User)
    (rand : Nat → ℚ) (limit : Nat) : List ScoredUser :=
  match currentUser with
  | none => []
  | some cu => ((scoreAll cu rand 0 allUsers).mergeSort byScoreDesc).take limit

/-- Written from the spec text of §4.2, for comparison with `scoreUser`:
`commonSkills` as a set intersection, `skillScore` the guarded ratio over
set cardinalities, jitter added, capped at 1, rounded to 2 decimal
places. -/
def specMatchScore (requesterSkills candidateSkills : List String) (j : ℚ) : ℚ :=
  let common := requesterSkills.toFinset ∩ candidateSkills.toFinset
  let skillScore : ℚ :=
    (common.card : ℚ) /
      ((max (max requesterSkills.toFinset.card candidateSkills.toFinset.card) 1 : Nat) : ℚ)
  (round (min (skillScore + j) 1 * 100) : ℚ) / 100

/-! ## Theorems about the batcher -/

/-- The reachable tracker state holding nine batched `page_view` events and
the deferred-flush timer scheduled for them. -/
def nineQueued : Sys :=
  { initState with
      batchQueue := List.replicate 9 ⟨"page_view", none⟩,
      batchTimeout := some 0, pendingTimers := [0], nextTimerId := 1 }

/-- C2 counterexample: from an enabled batcher holding nine queued events,
tracking the batchable type `page_view` does issue a network request inside
the call (the threshold flush), and the queue does not end with one more
entry appended (it is emptied), so the claim as stated fails at this
input. -/
theorem track_batchable_cex :
    nineQueued.isEnabled = true ∧ ("page_view" ∈ immediateEvents → False) ∧
      ¬ (track nineQueued "page_view" none true).2 = [] ∧
      (track nineQueued "page_view" none true).1.batchQueue = [] := by
  decide

/-- C2 amended: for a batchable activity type, as long as the append does
not reach `BATCH_SIZE` (queue shorter than 9 before the call), `track` on
an enabled batcher appends exactly one entry to the queue and issues zero
requests before returning; at the threshold the behavior of the
size-trigger flush applies instead. -/
theorem track_batchable_enqueue (s : Sys) (ty : String) (d : Option String) (ok : Bool)
    (hen : s.isEnabled = true) (hni : ty ∉ immediateEvents)
    (hlt : s.batchQueue.length + 1 < BATCH_SIZE) :
    (track s ty d ok).1.batchQueue = s.batchQueue ++ [⟨ty, d⟩] ∧
      (track s ty d ok).2 = [] := by
  have h2 : ¬ BATCH_SIZE ≤ s.batchQueue.length + 1 := by omega
  cases htm : s.batchTimeout <;> simp [track, hen, hni, htm, h2]

/-- Witness for the amended C2: tracking `page_view` from the fresh state
appends it as the single queue entry and issues nothing. -/
theorem track_batchable_enqueue_witness :
    (track initState "page_view" none true).1.batchQueue = [⟨"page_view", none⟩] ∧
      (track initState "page_view" none true).2 = [] :=
  track_batchable_enqueue initState "page_view" none true rfl (by decide) (by decide)

/-- The FlushTimer invariant: either no timer handle is stored and none is
pending in the runtime, or exactly the stored handle is pending and the
queue is non-empty. -/
def SysInv (s : Sys) : Prop :=
  (s.batchTimeout = none ∧ s.pendingTimers = []) ∨
    (∃ tid, s.batchTimeout = some tid ∧ s.pendingTimers = [tid] ∧ s.batchQueue ≠ [])

/-- The internal `try`/`catch` of `flushBatch` yields one result whatever
the sink outcome: the flush is a pure function of the pre-state. -/
theorem flushBatch_eq (s : Sys) (ok : Bool) :
    flushBatch s ok =
      if s.batchQueue.length = 0 then (s, [])
      else
        ((match s.batchTimeout with
          | some id =>
              { s with batchQueue := [], batchTimeout := none,
                       pendingTimers := s.pendingTimers.erase id }
          | none => { s with batchQueue := [] }),
         [Request.batch s.batchQueue]) := by
  by_cases hq : s.batchQueue.length = 0
  · simp [flushBatch, hq]
  · cases htm : s.batchTimeout <;> cases ok <;> simp [flushBatch, hq, htm]

/-- A flush from an invariant state re-establishes the invariant and always
leaves no stored handle and no pending timer. -/
theorem flushBatch_inv (s : Sys) (ok : Bool) (h : SysInv s) :
    SysInv (flushBatch s ok).1 ∧ (flushBatch s ok).1.pendingTimers = [] ∧
      (flushBatch s ok).1.batchTimeout = none := by
  rcases h with ⟨h1, h2⟩ | ⟨tid, h1, h2, hne⟩
  · by_cases hq : s.batchQueue.length = 0
    · exact ⟨Or.inl (by simp [flushBatch_eq, hq, h1, h2]),
        by simp [flushBatch_eq, hq, h1, h2], by simp [flushBatch_eq, hq, h1, h2]⟩
    · exact ⟨Or.inl (by simp [flushBatch_eq, hq, h1, h2]),
        by simp [flushBatch_eq, hq, h1, h2], by simp [flushBatch_eq, hq, h1, h2]⟩
  · have hq : ¬ s.batchQueue.length = 0 := by simpa using hne
    exact ⟨Or.inl (by simp [flushBatch_eq, hq, h1, h2]),
      by simp [flushBatch_eq, hq, h1, h2], by simp [flushBatch_eq, hq, h1, h2]⟩

/-- Method `flushBatch` never allocates a timer handle. -/
theorem flushBatch_nextTimerId (s : Sys) (ok : Bool) :
    (flushBatch s ok).1.nextTimerId = s.nextTimerId := by
  unfold flushBatch
  split
  · rfl
  · cases s.batchTimeout <;> cases ok <;> rfl

/-- Method `track` preserves the FlushTimer invariant. -/
theorem track_inv (s : Sys) (ty : String) (d : Option String) (ok : Bool)
    (h : SysInv s) : SysInv (track s ty d ok).1 := by
  by_cases hen : s.isEnabled = false
  · simpa [track, hen] using h
  · by_cases him : ty ∈ immediateEvents
    · cases ok <;> simpa [track, hen, him, sendActivity] using h
    · by_cases hth : BATCH_SIZE ≤ s.batchQueue.length + 1
      · have h1 : SysInv { s with batchQueue := s.batchQueue ++ [(⟨ty, d⟩ : ActivityData)] } := by
          rcases h with ⟨h1, h2⟩ | ⟨tid, h1, h2, _⟩
          · exact Or.inl ⟨h1, h2⟩
          · exact Or.inr ⟨tid, h1, h2, by simp⟩
        have := (flushBatch_inv { s with batchQueue := s.batchQueue ++ [⟨ty, d⟩] } ok h1).1
        simpa [track, hen, him, hth] using this
      · cases htm : s.batchTimeout with
        | none =>
          refine Or.inr ⟨s.nextTimerId, ?_⟩
          rcases h with ⟨_, h2⟩ | ⟨tid, h1, _, _⟩
          · simp [track, hen, him, hth, htm, h2]
          · exact absurd (htm ▸ h1) (by simp)
        | some tid =>
          refine Or.inr ⟨tid, ?_⟩
          rcases h with ⟨h1, _⟩ | ⟨tid2, h1, h2, _⟩
          · exact absurd (htm ▸ h1) (by simp)
          · have : tid2 = tid := by rw [htm] at h1; exact (Option.some.injEq _ _ ▸ h1).symm
            subst this
            simp [track, hen, him, hth, htm, h2]

/-- The timer runtime firing the scheduled callback preserves the
invariant, and afterwards nothing is stored or pending. -/
theorem timerFire_inv (s : Sys) (ok : Bool) (h : SysInv s) :
    SysInv (timerFire s ok).1 := by
  cases hp : s.pendingTimers with
  | nil => simpa [timerFire, hp] using h
  | cons tid rest =>
    rcases h with ⟨_, h2⟩ | ⟨tid2, h1, h2, hne⟩
    · exact absurd (hp ▸ h2) (by simp)
    · have he : tid2 = tid ∧ rest = [] := by
        rw [hp] at h2
        exact ⟨(List.cons.injEq _ _ _ _ ▸ h2.symm).1, (List.cons.injEq _ _ _ _ ▸ h2.symm).2.symm⟩
      have hq : ¬ s.batchQueue.length = 0 := by simpa using hne
      refine Or.inl ?_
      rw [he.1] at h1
      cases ok <;> simp [timerFire, hp, he.2, flushBatch, hq, h1]

/-- Every public operation preserves the FlushTimer invariant. -/
theorem step_inv (s : Sys) (op : Op) (h : SysInv s) : SysInv (step s op).1 := by
  cases op with
  | enable => simpa [step] using h
  | disable => simpa [step] using h
  | track ty d ok => exact track_inv s ty d ok h
  | timerFire ok => exact timerFire_inv s ok h
  | beforeUnload hb =>
    have : (beforeUnload s hb).1 = s := by
      unfold beforeUnload
      split <;> [skip; rfl]
      split <;> rfl
    simpa [step, this] using h

/-- The invariant holds in every state reachable by public operations. -/
theorem runOps_inv (ops : List Op) (s : Sys) (h : SysInv s) :
    SysInv (runOps s ops).1 := by
  induction ops generalizing s with
  | nil => simpa [runOps] using h
  | cons op rest ih => exact ih (step s op).1 (step_inv s op h)

/-- With a stored timer handle present, `track` never allocates a new
handle (checking-before-scheduling). -/
theorem track_no_alloc (s : Sys) (ty : String) (d : Option String) (ok : Bool)
    (h : s.batchTimeout ≠ none) : (track s ty d ok).1.nextTimerId = s.nextTimerId := by
  cases htm : s.batchTimeout with
  | none => exact absurd htm h
  | some tid =>
    by_cases hen : s.isEnabled = false
    · simp [track, hen]
    · by_cases him : ty ∈ immediateEvents
      · cases ok <;> simp [track, hen, him, sendActivity]
      · by_cases hth : BATCH_SIZE ≤ s.batchQueue.length + 1
        · simpa [track, hen, him, hth] using
            flushBatch_nextTimerId { s with batchQueue := s.batchQueue ++ [⟨ty, d⟩] } ok
        · simp [track, hen, him, hth, htm]

/-- C4: after every sequence of public operations from a fresh tracker, at
most one deferred-flush timer is pending; a flush from the reached state
always leaves no pending timer and no stored handle (a pending timer is
cancelled and cleared by any flush, threshold- or timer-triggered); and
while a handle is stored, `track` allocates no new one. -/
theorem flushTimer_at_most_one (ops : List Op) (ok : Bool) :
    (runOps initState ops).1.pendingTimers.length ≤ 1 ∧
      (flushBatch (runOps initState ops).1 ok).1.pendingTimers = [] ∧
      (flushBatch (runOps initState ops).1 ok).1.batchTimeout = none ∧
      ∀ (ty : String) (d : Option String) (ok2 : Bool),
        (runOps initState ops).1.batchTimeout ≠ none →
          (track (runOps initState ops).1 ty d ok2).1.nextTimerId =
            (runOps initState ops).1.nextTimerId := by
  have hinv : SysInv (runOps initState ops).1 :=
    runOps_inv ops initState (Or.inl ⟨rfl, rfl⟩)
  have hflush := flushBatch_inv (runOps initState ops).1 ok hinv
  refine ⟨?_, hflush.2.1, hflush.2.2, fun ty d ok2 h => track_no_alloc _ ty d ok2 h⟩
  rcases hinv with ⟨_, h2⟩ | ⟨tid, _, h2, _⟩ <;> simp [h2]

/-- Witness for C4: after one batchable track the single scheduled timer is
the only pending one, and a further track while it is pending allocates no
new handle. -/
theorem flushTimer_at_most_one_witness :
    (runOps initState [Op.track "page_view" none true]).1.pendingTimers.length ≤ 1 ∧
      (track (runOps initState [Op.track "page_view" none true]).1
          "button_click" none true).1.nextTimerId =
        (runOps initState [Op.track "page_view" none true]).1.nextTimerId :=
  ⟨(flushTimer_at_most_one [Op.track "page_view" none true] true).1,
   (flushTimer_at_most_one [Op.track "page_view" none true] true).2.2.2
      "button_click" none true (by decide)⟩

/-- C3: for an immediate-set activity type, `track` on an enabled batcher
issues exactly one single-event request, adds nothing to the batch queue,
leaves the timer state unchanged (the whole state is unchanged), and
returns normally whether or not the send succeeds. -/
theorem track_immediate_single (s : Sys) (ty : String) (d : Option String) (ok : Bool)
    (hen : s.isEnabled = true) (him : ty ∈ immediateEvents) :
    track s ty d ok = (s, [Request.single ⟨ty, d⟩]) := by
  cases ok <;> simp [track, sendActivity, hen, him]

/-- Witness for C3: tracking `login` with a failing sink from the fresh
state issues one single-event request and changes nothing. -/
theorem track_immediate_single_witness :
    initState.isEnabled = true ∧ "login" ∈ immediateEvents ∧
      track initState "login" none false = (initState, [Request.single ⟨"login", none⟩]) :=
  ⟨rfl, by decide, track_immediate_single initState "login" none false rfl (by decide)⟩

/-- C5: when the batch sink fails, the flush behaves exactly as on success:
the queue was emptied before the request was issued (the resulting queue is
empty), exactly one batch request is ever issued (no retry, no re-queue),
and the failure is swallowed. -/
theorem flushBatch_failure_swallowed (s : Sys) (h : s.batchQueue ≠ []) :
    flushBatch s false = flushBatch s true ∧
      (flushBatch s false).1.batchQueue = [] ∧
      (flushBatch s false).2 = [Request.batch s.batchQueue] := by
  have hlen : ¬ s.batchQueue.length = 0 := by
    simpa using h
  cases htm : s.batchTimeout <;> simp [flushBatch, hlen, htm]

/-- Witness for C5: a flush of a one-event queue with a failing sink. -/
theorem flushBatch_failure_swallowed_witness :
    ({ initState with batchQueue := [⟨"page_view", none⟩] } : Sys).batchQueue ≠ [] ∧
      (flushBatch { initState with batchQueue := [⟨"page_view", none⟩] } false).1.batchQueue = [] :=
  ⟨by decide,
   (flushBatch_failure_swallowed { initState with batchQueue := [⟨"page_view", none⟩] }
      (by decide)).2.1⟩

/-- C6: with a non-empty queue and the beacon API present, `beforeUnload`
issues exactly one teardown delivery tagged `batch_unload` carrying the
whole queue; with an empty queue it issues nothing at all. -/
theorem beforeUnload_delivery (s : Sys) :
    (s.batchQueue ≠ [] →
      (beforeUnload s true).2 = [Request.beacon "batch_unload" s.batchQueue]) ∧
      (s.batchQueue = [] → ∀ hb : Bool, (beforeUnload s hb).2 = []) := by
  constructor
  · intro h
    have hlen : 0 < s.batchQueue.length := by
      cases hq : s.batchQueue with
      | nil => exact absurd hq h
      | cons a l => simp [hq]
    simp [beforeUnload, hlen]
  · intro h hb
    simp [beforeUnload, h]

/-- Witness for C6: a one-event queue is beaconed whole as `batch_unload`. -/
theorem beforeUnload_delivery_witness :
    (beforeUnload { initState with batchQueue := [⟨"page_view", none⟩] } true).2 =
      [Request.beacon "batch_unload" [⟨"page_view", none⟩]] :=
  (beforeUnload_delivery { initState with batchQueue := [⟨"page_view", none⟩] }).1 (by decide)

/-- C10: `beforeUnload` never mutates the batcher: queue, stored timer
handle and pending timers survive it unchanged; consequently, when the page
does not unload, a later flush delivers to the batch sink exactly the
events that were already beaconed. -/
theorem beforeUnload_state_unchanged (s : Sys) (hb ok : Bool) :
    (beforeUnload s hb).1 = s ∧
      (s.batchQueue ≠ [] →
        (beforeUnload s true).2 = [Request.beacon "batch_unload" s.batchQueue] ∧
          (flushBatch (beforeUnload s true).1 ok).2 = [Request.batch s.batchQueue]) := by
  have hframe : ∀ b : Bool, (beforeUnload s b).1 = s := by
    intro b
    unfold beforeUnload
    split <;> [skip; rfl]
    split <;> rfl
  refine ⟨hframe hb, fun h => ?_⟩
  have hlen : 0 < s.batchQueue.length := by
    cases hq : s.batchQueue with
    | nil => exact absurd hq h
    | cons a l => simp [hq]
  have hlen' : ¬ s.batchQueue.length = 0 := by omega
  constructor
  · simp [beforeUnload, hlen]
  · rw [hframe true]
    cases htm : s.batchTimeout <;> cases ok <;> simp [flushBatch, hlen', htm]

/-- Witness for C10: the beaconed one-event queue is re-delivered whole by
a later flush. -/
theorem beforeUnload_state_unchanged_witness :
    (beforeUnload { initState with batchQueue := [⟨"page_view", none⟩] } true).1 =
      { initState with batchQueue := [⟨"page_view", none⟩] } ∧
      (flushBatch (beforeUnload { initState with batchQueue := [⟨"page_view", none⟩] } true).1
          true).2 = [Request.batch [⟨"page_view", none⟩]] :=
  ⟨(beforeUnload_state_unchanged { initState with batchQueue := [⟨"page_view", none⟩] }
      true true).1,
   ((beforeUnload_state_unchanged { initState with batchQueue := [⟨"page_view", none⟩] }
      true true).2 (by decide)).2⟩

/-- Tracking calls for a list of (type, payload, sink-outcome) triples. -/
def trackOps (es : List (String × Option String × Bool)) : List Op :=
  es.map fun e => Op.track e.1 e.2.1 e.2.2

/-- The events carried by those calls, in call order. -/
def toEvents (es : List (String × Option String × Bool)) : List ActivityData :=
  es.map fun e => ⟨e.1, e.2.1⟩

theorem trackOps_cons (e : String × Option String × Bool)
    (rest : List (String × Option String × Bool)) :
    trackOps (e :: rest) = Op.track e.1 e.2.1 e.2.2 :: trackOps rest := rfl

theorem toEvents_cons (e : String × Option String × Bool)
    (rest : List (String × Option String × Bool)) :
    toEvents (e :: rest) = (⟨e.1, e.2.1⟩ : ActivityData) :: toEvents rest := rfl

theorem runOps_cons (s : Sys) (op : Op) (ops : List Op) :
    runOps s (op :: ops) =
      ((runOps (step s op).1 ops).1, (step s op).2 ++ (runOps (step s op).1 ops).2) := rfl

/-- A batchable track below the threshold while a timer is stored only
appends the event. -/
theorem track_step_accum (s : Sys) (ty : String) (d : Option String) (ok : Bool) (tid : Nat)
    (hen : s.isEnabled = true) (hni : ty ∉ immediateEvents)
    (htm : s.batchTimeout = some tid)
    (hlt : s.batchQueue.length + 1 < BATCH_SIZE) :
    track s ty d ok = ({ s with batchQueue := s.batchQueue ++ [⟨ty, d⟩] }, []) := by
  have h2 : ¬ BATCH_SIZE ≤ s.batchQueue.length + 1 := by omega
  simp [track, hen, hni, htm, h2]

/-- A batchable track that reaches the threshold flushes at once: queue
emptied, timer cancelled and cleared, the whole accumulated batch sent as
one request. -/
theorem track_step_flush (s : Sys) (ty : String) (d : Option String) (ok : Bool) (tid : Nat)
    (hen : s.isEnabled = true) (hni : ty ∉ immediateEvents)
    (htm : s.batchTimeout = some tid)
    (hge : BATCH_SIZE ≤ s.batchQueue.length + 1) :
    track s ty d ok =
      ({ s with batchQueue := [], batchTimeout := none,
                pendingTimers := s.pendingTimers.erase tid },
       [Request.batch (s.batchQueue ++ [⟨ty, d⟩])]) := by
  simp [track, hen, hni, hge, flushBatch_eq, htm]

/-- Filling the queue up to `BATCH_SIZE` with batchable tracks, while a
timer is stored, ends in exactly one flush of everything accumulated. -/
theorem runOps_fill (es : List (String × Option String × Bool)) (s : Sys) (tid : Nat)
    (hen : s.isEnabled = true) (htm : s.batchTimeout = some tid)
    (hne : es ≠ [])
    (hbat : ∀ e ∈ es, e.1 ∉ immediateEvents)
    (hsum : s.batchQueue.length + es.length = BATCH_SIZE) :
    runOps s (trackOps es) =
      ({ s with batchQueue := [], batchTimeout := none,
                pendingTimers := s.pendingTimers.erase tid },
       [Request.batch (s.batchQueue ++ toEvents es)]) := by
  induction es generalizing s with
  | nil => exact absurd rfl hne
  | cons e rest ih =>
    cases rest with
    | nil =>
      have hge : BATCH_SIZE ≤ s.batchQueue.length + 1 := by
        simp only [List.length_cons, List.length_nil] at hsum
        omega
      have h1 := track_step_flush s e.1 e.2.1 e.2.2 tid hen (hbat e (by simp)) htm hge
      simp [trackOps_cons, trackOps, toEvents_cons, toEvents, runOps, step, h1]
    | cons e2 r2 =>
      have hlt : s.batchQueue.length + 1 < BATCH_SIZE := by
        simp only [List.length_cons] at hsum
        omega
      have h1 : step s (Op.track e.1 e.2.1 e.2.2) =
          ({ s with batchQueue := s.batchQueue ++ [⟨e.1, e.2.1⟩] }, []) :=
        track_step_accum s e.1 e.2.1 e.2.2 tid hen (hbat e (by simp)) htm hlt
      have ih2 := ih { s with batchQueue := s.batchQueue ++ [⟨e.1, e.2.1⟩] }
        hen htm (by simp)
        (fun x hx => hbat x (List.mem_cons_of_mem e hx))
        (by simp only [List.length_append, List.length_cons, List.length_nil] at hsum ⊢; omega)
      have key : runOps s (trackOps (e :: e2 :: r2)) =
          runOps { s with batchQueue := s.batchQueue ++ [⟨e.1, e.2.1⟩] }
            (trackOps (e2 :: r2)) := by
        rw [trackOps_cons, runOps_cons, h1]
        simp
      rw [key, ih2]
      simp [toEvents_cons]

/-- C1: from a fresh enabled batcher, tracking exactly `BATCH_SIZE` (10)
batchable events issues exactly one batch request carrying all 10 events in
insertion order and leaves the queue empty. -/
theorem batch_threshold_flush (es : List (String × Option String × Bool))
    (hlen : es.length = BATCH_SIZE)
    (hbat : ∀ e ∈ es, e.1 ∉ immediateEvents) :
    (runOps initState (trackOps es)).2 = [Request.batch (toEvents es)] ∧
      (runOps initState (trackOps es)).1.batchQueue = [] := by
  cases es with
  | nil => simp [BATCH_SIZE] at hlen
  | cons e rest =>
    have hrest : rest.length = 9 := by
      simp only [List.length_cons, BATCH_SIZE] at hlen
      omega
    have hni := hbat e (by simp)
    have h1 : step initState (Op.track e.1 e.2.1 e.2.2) =
        ({ isEnabled := true, batchQueue := [⟨e.1, e.2.1⟩], batchTimeout := some 0,
           pendingTimers := [0], nextTimerId := 1 }, []) := by
      have hth : ¬ BATCH_SIZE ≤ (1 : Nat) := by simp [BATCH_SIZE]
      simp [step, track, initState, hni, hth]
    have h2 := runOps_fill rest
      { isEnabled := true, batchQueue := [⟨e.1, e.2.1⟩], batchTimeout := some 0,
        pendingTimers := [0], nextTimerId := 1 }
      0 rfl rfl
      (by intro h; rw [h] at hrest; simp at hrest)
      (fun x hx => hbat x (List.mem_cons_of_mem e hx))
      (by simp [hrest, BATCH_SIZE])
    have key : runOps initState (trackOps (e :: rest)) =
        runOps
          { isEnabled := true, batchQueue := [⟨e.1, e.2.1⟩], batchTimeout := some 0,
            pendingTimers := [0], nextTimerId := 1 }
          (trackOps rest) := by
      rw [trackOps_cons, runOps_cons, h1]
      simp
    rw [key, h2]
    constructor
    · simp [toEvents_cons]
    · simp

/-- Witness for C1: ten `page_view` events from the fresh state produce one
batch request of all ten and an empty queue. -/
theorem batch_threshold_flush_witness :
    (List.replicate 10 (("page_view" : String), (none : Option String), true)).length =
        BATCH_SIZE ∧
      (runOps initState
          (trackOps (List.replicate 10 (("page_view" : String), (none : Option String), true)))).2 =
        [Request.batch
          (toEvents (List.replicate 10 (("page_view" : String), (none : Option String), true)))] ∧
      (runOps initState
          (trackOps (List.replicate 10
            (("page_view" : String), (none : Option String), true)))).1.batchQueue = [] :=
  ⟨by decide,
   (batch_threshold_flush (List.replicate 10 ("page_view", none, true))
      (by decide) (by decide)).1,
   (batch_threshold_flush (List.replicate 10 ("page_view", none, true))
      (by decide) (by decide)).2⟩

/-! ## Theorems about the scorer -/

/-- The computed `matchScore`, written out. -/
theorem scoreUser_matchScore (cu u : User) (j : ℚ) :
    (scoreUser cu u j).matchScore =
      round2 (min
        ((((cu.skills.getD []).filter
            (fun skill => decide (skill ∈ u.skills.getD []))).length : ℚ) /
          ((max (max (cu.skills.getD []).length (u.skills.getD []).length) 1 : Nat) : ℚ) + j)
        1) := rfl

/-- On a duplicate-free list, `filter`-by-membership computes the
cardinality of the finite-set intersection. -/
theorem filter_mem_length_eq_inter_card (rs cs : List String) (hr : rs.Nodup) :
    (rs.filter (fun a => decide (a ∈ cs))).length = (rs.toFinset ∩ cs.toFinset).card := by
  have h1 : (rs.filter (fun a => decide (a ∈ cs))).Nodup := hr.filter _
  rw [← List.toFinset_card_of_nodup h1, List.toFinset_filter]
  congr 1
  ext a
  simp

/-- C7: on duplicate-free skill lists, the scorer computes exactly the
specified quantity — the case-sensitive exact-match set intersection,
divided by `max(|requester.skills|, |candidate.skills|, 1)`, plus the
jitter, capped at 1 and rounded to 2 decimal places — and the denominator
is positive for every input (no division by zero even when both skill sets
are empty). -/
theorem scoreUser_matches_spec (cu u : User) (j : ℚ)
    (hcu : (cu.skills.getD []).Nodup) (hu : (u.skills.getD []).Nodup)
    (hj0 : 0 ≤ j) (hj1 : j < 3 / 10) :
    (scoreUser cu u j).matchScore =
        specMatchScore (cu.skills.getD []) (u.skills.getD []) j ∧
      (0 : ℚ) <
        ((max (max (cu.skills.getD []).length (u.skills.getD []).length) 1 : Nat) : ℚ) := by
  constructor
  · rw [scoreUser_matchScore]
    unfold specMatchScore round2
    dsimp only
    rw [round_eq]
    rw [filter_mem_length_eq_inter_card _ _ hcu]
    rw [List.toFinset_card_of_nodup hcu, List.toFinset_card_of_nodup hu]
  · have h1 : 1 ≤ max (max (cu.skills.getD []).length (u.skills.getD []).length) 1 :=
      le_max_right _ _
    exact_mod_cast lt_of_lt_of_le Nat.zero_lt_one h1

/-- Witness for C7: requester skills `mixing, mastering`, candidate skills
`mixing, mastering, vocals`, jitter `1/10`. -/
theorem scoreUser_matches_spec_witness :
    (scoreUser ⟨"r", some ["mixing", "mastering"]⟩
        ⟨"a", some ["mixing", "mastering", "vocals"]⟩ (1 / 10)).matchScore =
      specMatchScore ["mixing", "mastering"] ["mixing", "mastering", "vocals"] (1 / 10) :=
  (scoreUser_matches_spec ⟨"r", some ["mixing", "mastering"]⟩
    ⟨"a", some ["mixing", "mastering", "vocals"]⟩ (1 / 10)
    (by decide) (by decide) (by norm_num) (by norm_num)).1

/-- For a non-negative jitter, the computed `matchScore` lies in `[0, 1]`. -/
theorem scoreUser_matchScore_bounds (cu u : User) (j : ℚ) (h0 : 0 ≤ j) :
    0 ≤ (scoreUser cu u j).matchScore ∧ (scoreUser cu u j).matchScore ≤ 1 := by
  rw [scoreUser_matchScore]
  have hd : (0 : ℚ) <
      ((max (max (cu.skills.getD []).length (u.skills.getD []).length) 1 : Nat) : ℚ) := by
    have h1 : 1 ≤ max (max (cu.skills.getD []).length (u.skills.getD []).length) 1 :=
      le_max_right _ _
    exact_mod_cast lt_of_lt_of_le Nat.zero_lt_one h1
  have hsk : 0 ≤
      ((((cu.skills.getD []).filter
          (fun skill => decide (skill ∈ u.skills.getD []))).length : ℚ) /
        ((max (max (cu.skills.getD []).length (u.skills.getD []).length) 1 : Nat) : ℚ)) :=
    div_nonneg (Nat.cast_nonneg _) (le_of_lt hd)
  set m := min
    ((((cu.skills.getD []).filter
        (fun skill => decide (skill ∈ u.skills.getD []))).length : ℚ) /
      ((max (max (cu.skills.getD []).length (u.skills.getD []).length) 1 : Nat) : ℚ) + j)
    1 with hm
  have hm0 : 0 ≤ m := le_min (add_nonneg hsk h0) zero_le_one
  have hm1 : m ≤ 1 := min_le_right _ _
  have hf0 : (0 : ℤ) ≤ ⌊m * 100 + 1 / 2⌋ := Int.floor_nonneg.mpr (by linarith)
  have hf1 : ⌊m * 100 + 1 / 2⌋ ≤ 100 := by
    have h2 : m * 100 + 1 / 2 ≤ (201 : ℚ) / 2 := by linarith
    calc ⌊m * 100 + 1 / 2⌋ ≤ ⌊(201 : ℚ) / 2⌋ := Int.floor_le_floor h2
      _ = 100 := by norm_num
  unfold round2
  constructor
  · exact div_nonneg (by exact_mod_cast hf0) (by norm_num)
  · rw [div_le_one (by norm_num : (0 : ℚ) < 100)]
    exact_mod_cast hf1

/-- Every member of `scoreAll` is the score of some pool member at some
jitter index. -/
theorem mem_scoreAll (cu : User) (rand : Nat → ℚ) (i : Nat) (us : List User)
    (x : ScoredUser) (hx : x ∈ scoreAll cu rand i us) :
    ∃ u k, u ∈ us ∧ x = scoreUser cu u (rand k) := by
  induction us generalizing i with
  | nil => simp [scoreAll] at hx
  | cons u us ih =>
    simp only [scoreAll, List.mem_cons] at hx
    rcases hx with h | h
    · exact ⟨u, i, by simp, h⟩
    · obtain ⟨u2, k, hm, he⟩ := ih (i + 1) h
      exact ⟨u2, k, by simp [hm], he⟩

/-- C8: for every requester, candidate pool, limit, and per-candidate
jitter values in `[0, 0.3)`, the returned list is sorted descending by
`matchScore`, has at most `limit` entries, and every returned `matchScore`
lies in `[0, 1]`. -/
theorem getUserRecommendations_ranked_bounded (cu : User) (pool : List User)
    (rand : Nat → ℚ) (limit : Nat)
    (hr : ∀ i, 0 ≤ rand i ∧ rand i < 3 / 10) :
    List.Pairwise (fun a b => b.matchScore ≤ a.matchScore)
        (getUserRecommendations (some cu) pool rand limit) ∧
      (getUserRecommendations (some cu) pool rand limit).length ≤ limit ∧
      ∀ x ∈ getUserRecommendations (some cu) pool rand limit,
        0 ≤ x.matchScore ∧ x.matchScore ≤ 1 := by
  have hsort : List.Pairwise (fun a b => byScoreDesc a b = true)
      ((scoreAll cu rand 0 pool).mergeSort byScoreDesc) :=
    List.sorted_mergeSort
      (fun a b c h1 h2 => by
        simp only [byScoreDesc, decide_eq_true_eq] at h1 h2 ⊢
        exact le_trans h2 h1)
      (fun a b => by
        simp only [byScoreDesc, Bool.or_eq_true, decide_eq_true_eq]
        exact le_total _ _)
      (scoreAll cu rand 0 pool)
  refine ⟨?_, ?_, ?_⟩
  · have h1 : List.Pairwise (fun a b => b.matchScore ≤ a.matchScore)
        ((scoreAll cu rand 0 pool).mergeSort byScoreDesc) :=
      hsort.imp (fun h => by simpa [byScoreDesc] using h)
    exact List.Pairwise.sublist (List.take_sublist _ _) h1
  · exact List.length_take_le _ _
  · intro x hx
    have h2 : x ∈ (scoreAll cu rand 0 pool).mergeSort byScoreDesc :=
      List.mem_of_mem_take hx
    have h3 : x ∈ scoreAll cu rand 0 pool := List.mem_mergeSort.mp h2
    obtain ⟨u, k, _, he⟩ := mem_scoreAll cu rand 0 pool x h3
    rw [he]
    exact scoreUser_matchScore_bounds cu u (rand k) (hr k).1

/-- Witness for C8: a two-candidate pool with constant jitter `1/10` and
the default limit 10. -/
theorem getUserRecommendations_ranked_bounded_witness :
    List.Pairwise (fun a b => b.matchScore ≤ a.matchScore)
        (getUserRecommendations (some ⟨"r", some ["mixing", "mastering"]⟩)
          [⟨"a", some ["mixing", "mastering", "vocals"]⟩, ⟨"b", some ["drums"]⟩]
          (fun _ => 1 / 10) 10) ∧
      (getUserRecommendations (some ⟨"r", some ["mixing", "mastering"]⟩)
          [⟨"a", some ["mixing", "mastering", "vocals"]⟩, ⟨"b", some ["drums"]⟩]
          (fun _ => 1 / 10) 10).length ≤ 10 ∧
      ∀ x ∈ getUserRecommendations (some ⟨"r", some ["mixing", "mastering"]⟩)
          [⟨"a", some ["mixing", "mastering", "vocals"]⟩, ⟨"b", some ["drums"]⟩]
          (fun _ => 1 / 10) 10,
        0 ≤ x.matchScore ∧ x.matchScore ≤ 1 :=
  getUserRecommendations_ranked_bounded ⟨"r", some ["mixing", "mastering"]⟩
    [⟨"a", some ["mixing", "mastering", "vocals"]⟩, ⟨"b", some ["drums"]⟩]
    (fun _ => 1 / 10) 10 (fun _ => ⟨by norm_num, by norm_num⟩)

/-- C9: the scorer returns `[]`, raising nothing, when the requester has no
profile, when the candidate pool is empty, and when `limit = 0`. -/
theorem getUserRecommendations_degenerate (cu : User) (pool : List User)
    (rand : Nat → ℚ) (limit : Nat) :
    getUserRecommendations none pool rand limit = [] ∧
      getUserRecommendations (some cu) [] rand limit = [] ∧
      getUserRecommendations (some cu) pool rand 0 = [] := by
  refine ⟨rfl, ?_, ?_⟩ <;> simp [getUserRecommendations, scoreAll]
